import Mathlib

/-!
Verification of the approval-rating entry and aggregation tool (`src/app.py`).

The program is a Streamlit script with three workflows sharing a fixed party
taxonomy: manual entry with a derived "その他" (other) category and CSV export,
multi-file averaging of uploaded CSVs, and time-series pivoting.  This file
shallowly embeds the data transformations of that script: Python floats are
modelled as exact rationals, `round(x, 1)` as round-half-to-even on rationals,
pandas data frames as lists of records, and CSV cells as strings.  The numeric
widgets (`st.number_input` with step 0.1, bounds 0 and 100) are modelled by
rationals at the widget's granularity where a claim needs the printed form of
a value.
-/

/- ### Python numeric primitives -/

/-- Round-half-to-even to the nearest integer, the rounding mode of Python's
built-in `round` (modelled on exact rationals rather than binary floats). -/
def roundHalfEven (q : ℚ) : ℤ :=
  if q - ⌊q⌋ < 1/2 then ⌊q⌋
  else if 1/2 < q - ⌊q⌋ then ⌊q⌋ + 1
  else if ⌊q⌋ % 2 = 0 then ⌊q⌋ else ⌊q⌋ + 1

/-- Python's `round(x, 1)`: round to one decimal place, ties to even. -/
def round1 (q : ℚ) : ℚ := (roundHalfEven (10 * q) : ℚ) / 10

/-- Python `s.replace('.', '', 1)` on the character list of `s`: remove the
first occurrence of `'.'`, keep everything else. -/
def removeDotOnce : List Char → List Char
  | [] => []
  | c :: cs => if c = '.' then cs else c :: removeDotOnce cs

/-- Python `str.isdigit` on one character, restricted to the code points this
development evaluates on: ASCII digits and the fullwidth digits U+FF10–U+FF19.
Python's `isdigit` accepts further Unicode digit code points; all characters
used in theorems below are covered exactly by this table. -/
def pyDigitChar (c : Char) : Bool :=
  c.isDigit || (0xFF10 ≤ c.toNat && c.toNat ≤ 0xFF19)

/-- Python `str.isdigit`: true iff the string is nonempty and every character
is a digit character. -/
def pyIsDigit (l : List Char) : Bool := !l.isEmpty && l.all pyDigitChar

/-- The row filter of the aggregation workflow (`app.py` line 99):
`str(x).replace('.', '', 1).isdigit()` applied to a rating cell. -/
def passesFilter (s : String) : Bool := pyIsDigit (removeDotOnce s.data)

/-- Numeric value of a digit character accepted by `pyDigitChar`. -/
def digitVal (c : Char) : ℕ :=
  if c.isDigit then c.toNat - 48 else c.toNat - 0xFF10

/-- Parse a digit list as a base-10 natural number (the integer or fractional
digit block of a Python `float(...)` conversion). -/
def parseNatDigits (l : List Char) : ℕ := l.foldl (fun a c => 10 * a + digitVal c) 0

/-- Split a character list at the first `'.'` into integer digits and
fractional digits. -/
def intFracSplit : List Char → List Char × List Char
  | [] => ([], [])
  | c :: cs => if c = '.' then ([], cs) else
    ((intFracSplit cs).1.cons c, (intFracSplit cs).2)

/-- Python `float(s)` on the non-negative decimal numerals that pass the
aggregation filter (`df["支持率"].astype(float)`, `app.py` line 100). -/
def parseRat (s : String) : ℚ :=
  (parseNatDigits (intFracSplit s.data).1 : ℚ) +
    (parseNatDigits (intFracSplit s.data).2 : ℚ) / 10 ^ (intFracSplit s.data).2.length

/-- Decimal digit characters of a natural number, most significant first; the
first argument is structural fuel bounding the recursion depth. -/
def natDigitsGo : ℕ → ℕ → List Char
  | 0, _ => []
  | f + 1, n =>
    if n < 10 then [Char.ofNat (48 + n)]
    else natDigitsGo f (n / 10) ++ [Char.ofNat (48 + n % 10)]

/-- Decimal digit characters of a natural number, most significant first. -/
def natDigits (n : ℕ) : List Char := natDigitsGo (n + 1) n

/-- Python `str` of a non-negative float holding an exact multiple of 1/10
(every value a 0.1-step widget produces): the shortest repr `"<int>.<tenth>"`,
e.g. `str(35.5) = "35.5"`, `str(55.0) = "55.0"`. -/
def fmtTenths (q : ℚ) : String :=
  String.mk (natDigits ((⌊10 * q⌋).toNat / 10) ++
    '.' :: [Char.ofNat (48 + (⌊10 * q⌋).toNat % 10)])

/-- Left-pad the decimal digits of `n` with zeros to width `k` (the behaviour
of `strftime` field formatting). -/
def padTo (k n : ℕ) : List Char :=
  List.replicate (k - (natDigits n).length) '0' ++ natDigits n

/-- Python `date.strftime("%Y-%m-%d")`. -/
def formatDateDashed (y m d : ℕ) : String :=
  String.mk (padTo 4 y ++ '-' :: (padTo 2 m ++ '-' :: padTo 2 d))

/-- Python `date.strftime("%Y%m%d")`. -/
def formatDateCompact (y m d : ℕ) : String :=
  String.mk (padTo 4 y ++ padTo 2 m ++ padTo 2 d)

/- Sanity checks on the primitives (kept as plain lemmas). -/

lemma passesFilter_examples :
    passesFilter "30.0" = true ∧ passesFilter "34" = true ∧
    passesFilter "N/A" = false ∧ passesFilter "-5" = false ∧
    passesFilter "12.3%" = false ∧ passesFilter "1e5" = false ∧
    passesFilter "" = false ∧ passesFilter "nan" = false ∧
    passesFilter "3.4.5" = false := by
  decide

lemma formatDateDashed_example : formatDateDashed 2024 1 1 = "2024-01-01" := by decide

lemma formatDateCompact_example : formatDateCompact 2024 1 1 = "20240101" := by decide

/- ### Manual entry and CSV export (`app.py` lines 19–79) -/

/-- The twelve manually entered categories (`manual_parties`, lines 26–30). -/
def manual_parties : List String :=
  ["自民党", "立憲民主党", "日本維新の会", "公明党", "共産党",
   "国民民主党", "れいわ新選組", "社民党", "参政党", "日本保守党",
   "みんなでつくる党", "支持なし"]

/-- The automatically derived category (`auto_party`, line 31). -/
def auto_party : String := "その他"

/-- A rating cell of the manual-entry table: either a number or the error
sentinel string "エラー" stored when the sum overflows (line 49). -/
inductive RVal where
  | num : ℚ → RVal
  | err : RVal
deriving DecidableEq

/-- Sum of the entered ratings over the twelve manual categories
(`total_manual`, line 44). -/
def total_manual (input : String → ℚ) : ℚ := (manual_parties.map input).sum

/-- The derived "その他" value (lines 47–51): the error sentinel when the
entered sum strictly exceeds 100, else `round(100 - total_manual, 1)`. -/
def otherRate (input : String → ℚ) : RVal :=
  if 100 < total_manual input then RVal.err
  else RVal.num (round1 (100 - total_manual input))

/-- The completed category-to-rating mapping (`support_rates`, lines 34–51):
the twelve manual entries in order, then the derived "その他" entry. -/
def support_rates (input : String → ℚ) : List (String × RVal) :=
  manual_parties.map (fun p => (p, RVal.num (input p))) ++
    [(auto_party, otherRate input)]

/-- The on-screen formatter `format_support` (lines 59–60): strings (the error
sentinel) pass through, numbers render as a one-decimal percentage. -/
def format_support (v : RVal) : String :=
  match v with
  | RVal.err => "エラー"
  | RVal.num q => fmtTenths q ++ "%"

/-- The raw cell written for a rating value by `df_export.to_csv` (line 69):
`str` of the stored value (number or sentinel), without any percent sign. -/
def rvalCell (v : RVal) : String :=
  match v with
  | RVal.err => "エラー"
  | RVal.num q => fmtTenths q

/-- Whether the download action is rendered (lines 71–79): the guard hides the
`st.download_button` exactly when the "その他" entry is the error sentinel. -/
def exportOffered (input : String → ℚ) : Bool :=
  if List.lookup auto_party (support_rates input) = some RVal.err then false else true

/-- One row of the exported CSV (`df_export`, lines 66–69): columns 政党
(party), 支持率 (rating), データソース (source), 調査日 (survey date). -/
structure ExportRow where
  party : String
  rating : String
  src : String
  date : String
deriving DecidableEq

/-- The exported table (lines 54–69): one row per category in mapping order,
the rating cell as written by `to_csv`, the source label, and the survey date
formatted `%Y-%m-%d`. -/
def df_export (input : String → ℚ) (source : String) (y m d : ℕ) : List ExportRow :=
  (support_rates input).map
    (fun pv => ⟨pv.1, rvalCell pv.2, source, formatDateDashed y m d⟩)

/-- The download file name (line 77):
`f"支持率_{source}_{survey_date.strftime('%Y%m%d')}.csv"`. -/
def file_name (source : String) (y m d : ℕ) : String :=
  "支持率_" ++ source ++ "_" ++ formatDateCompact y m d ++ ".csv"

/-- The file-name pattern the specification states: `{source}_{YYYYMMDD}.csv`
with no further prefix (spec section 6). -/
def specFileName (source : String) (y m d : ℕ) : String :=
  source ++ "_" ++ formatDateCompact y m d ++ ".csv"

/- ### Multi-file aggregation (`app.py` lines 94–128) -/

/-- One row of an uploaded aggregation CSV: the 政党 (party) cell and the raw
支持率 (rating) cell, both as strings. -/
structure Row where
  party : String
  rate : String
deriving DecidableEq

/-- Per-file row filtering (line 99): keep exactly the rows whose rating cell
passes the numeric filter. -/
def filterFile (rows : List Row) : List Row :=
  rows.filter (fun r => passesFilter r.rate)

/-- `combined_df` (lines 95–101): each uploaded file filtered, then all rows
concatenated in upload order. -/
def combined_df (files : List (List Row)) : List Row :=
  (files.map filterFile).flatten

/-- The rating values grouped under one party by
`combined_df.groupby("政党")["支持率"]` (line 103), after `astype(float)`. -/
def ratesOf (files : List (List Row)) (p : String) : List ℚ :=
  ((combined_df files).filter (fun r => r.party = p)).map (fun r => parseRat r.rate)

/-- The per-party mean of `avg_df` (line 103): `none` when the party has no
surviving rows (then the party is absent from the grouped table). -/
def avgFor (files : List (List Row)) (p : String) : Option ℚ :=
  match ratesOf files p with
  | [] => none
  | l => some (l.sum / l.length)

/-- The canonical display order `desired_order` (lines 106–110). -/
def desired_order : List String :=
  ["自民党", "公明党", "立憲民主党", "日本維新の会", "国民民主党",
   "参政党", "れいわ新選組", "共産党", "日本保守党", "社民党",
   "みんなでつくる党", "その他", "支持なし"]

/-- Sort key of `pd.Categorical(..., categories=desired_order, ordered=True)`
followed by `sort_values` (lines 127–128): the canonical index for a known
category, and the past-the-end key for an unknown category (pandas maps it to
NaN, which `sort_values` places last). -/
def catKey (p : String) : ℕ :=
  match desired_order.indexOf? p with
  | some i => i
  | none => desired_order.length

/-- The order relation `sort_values` sorts `avg_df` by. -/
def catLe (a b : String) : Prop := catKey a ≤ catKey b

instance : DecidableRel catLe := fun a b => Nat.decLe _ _

instance : IsTotal String catLe := ⟨fun a b => Nat.le_total _ _⟩

instance : IsTrans String catLe := ⟨fun _ _ _ => Nat.le_trans⟩

/-- All party cells surviving the per-file filter, in upload order. -/
def uploadParties (files : List (List Row)) : List String :=
  (combined_df files).map (fun r => r.party)

/-- The group keys of `groupby("政党")` (line 103): the distinct surviving
parties, sorted lexicographically (pandas sorts group keys). -/
def groupKeys (files : List (List Row)) : List String :=
  (List.insertionSort (· ≤ ·) (((uploadParties files).map String.data).dedup)).map
    String.mk

/-- The final category order of `avg_df` after the `Categorical` re-sort
(lines 127–128): the group keys re-sorted by canonical index, unknown
categories keyed past the end. -/
def displayOrder (files : List (List Row)) : List String :=
  List.insertionSort catLe (groupKeys files)

/- ### Time-series pivot (`app.py` lines 169–196) -/

/-- One row of the time-series input table: 調査日 (survey date, modelled as an
integer key after `pd.to_datetime`), 政党 (party), and 支持率 (rating, `none`
for a missing cell). -/
structure TSRow where
  date : ℤ
  party : String
  rate : Option ℚ

/-- `df_ts.dropna(subset=["支持率"])` (line 177). -/
def dropnaTS (rows : List TSRow) : List TSRow :=
  rows.filter (fun r => r.rate.isSome)

/-- `df_ts[df_ts["政党"].isin(selected_parties)]` after the dropna (line 194). -/
def selRows (rows : List TSRow) (sel : List String) : List TSRow :=
  (dropnaTS rows).filter (fun r => r.party ∈ sel)

/-- The ratings aggregated into one pivot cell: all rows of the filtered frame
sharing the given date and party. -/
def cellRates (rows : List TSRow) (sel : List String) (d : ℤ) (p : String) : List ℚ :=
  ((selRows rows sel).filter (fun r => r.date = d && r.party = p)).filterMap
    (fun r => r.rate)

/-- One cell of `pivot_table(index="調査日", columns="政党", values="支持率",
aggfunc="mean")` (lines 194–196): the mean of the duplicates, `none` (NaN)
when no row exists for the pair. -/
def pivotCell (rows : List TSRow) (sel : List String) (d : ℤ) (p : String) : Option ℚ :=
  match cellRates rows sel d p with
  | [] => none
  | l => some (l.sum / l.length)

/-- The pivot index after `.sort_index()` (line 196): the distinct dates of the
filtered frame in ascending order. -/
def pivotDates (rows : List TSRow) (sel : List String) : List ℤ :=
  List.insertionSort (· ≤ ·) (((selRows rows sel).map (fun r => r.date)).dedup)

/-- The ratings for a (date, party) pair straight from the raw uploaded rows:
every non-missing rating of a row carrying that date and that party. -/
def rawRates (rows : List TSRow) (d : ℤ) (p : String) : List ℚ :=
  rows.filterMap (fun r => if r.date = d ∧ r.party = p then r.rate else none)

/- ### Spec-side predicates (from the specification's wording, for comparison) -/

/-- The specification's description of the numeric filter: the cell's string
form, after removing at most one '.', is nonempty and consists solely of ASCII
digits. -/
def asciiNumeral (s : String) : Prop :=
  removeDotOnce s.data ≠ [] ∧ ∀ c ∈ removeDotOnce s.data, c.isDigit

instance (s : String) : Decidable (asciiNumeral s) := by
  unfold asciiNumeral; infer_instance

/-- The specification's description of an exported rating cell: a
percent-formatted display string (ending in '%') or the error token. -/
def isPercentDisplay (s : String) : Prop :=
  s = "エラー" ∨ s.data.getLast? = some '%'

/-- The mean over the valid entries of one category taken across the plain
concatenation of all uploaded tables, as the specification describes the
aggregate. -/
def validFor (rows : List Row) (p : String) : List ℚ :=
  (rows.filter (fun r => passesFilter r.rate && r.party = p)).map
    (fun r => parseRat r.rate)

/- ### Helper lemmas -/

lemma support_rates_lookup (input : String → ℚ) :
    List.lookup auto_party (support_rates input) = some (otherRate input) := by
  simp [support_rates, manual_parties, auto_party, List.lookup]

/-- C1: if the entered ratings sum to at most 100 the derived "その他" entry of
the completed mapping is `round(100 - sum, 1)` (Python's round-half-to-even at
one decimal); if the sum strictly exceeds 100 it is the error sentinel. -/
theorem c1_other_entry (input : String → ℚ) :
    List.lookup auto_party (support_rates input) =
      some (if 100 < total_manual input then RVal.err
            else RVal.num (round1 (100 - total_manual input))) := by
  rw [support_rates_lookup]; rfl

/-- C3: the CSV download action is rendered exactly when the entered ratings
sum to at most 100; when the sum exceeds 100 the action is suppressed and no
file can be produced. -/
theorem c3_export_guard (input : String → ℚ) :
    exportOffered input = decide (total_manual input ≤ 100) := by
  unfold exportOffered
  rw [support_rates_lookup]
  unfold otherRate
  by_cases h : 100 < total_manual input
  · simp [h, not_le.mpr h]
  · simp [h, not_lt.mp h]

/-- C8 counterexample: for source "NHK" and survey date 2024-01-01 the export
file name is "支持率_NHK_20240101.csv", not "NHK_20240101.csv" as the claimed
pattern prescribes. -/
theorem c8_counterexample : file_name "NHK" 2024 1 1 ≠ specFileName "NHK" 2024 1 1 := by
  decide

/-- C8 amended: the export file name is exactly the fixed prefix "支持率_"
followed by the claimed pattern source, "_", the date as YYYYMMDD, and
".csv"; it is a function of the source and date only, so repeated exports of
the same survey produce the same name. -/
theorem c8_file_name (source : String) (y m d : ℕ) :
    file_name source y m d = "支持率_" ++ specFileName source y m d := by
  simp [file_name, specFileName, String.append_assoc]

/-- C9 counterexample: the fullwidth digit string "３４" passes the code's
numeric filter (Python's `isdigit` accepts Unicode digits) but does not
consist of ASCII digits, so the claimed characterisation fails. -/
theorem c9_counterexample :
    passesFilter "３４" = true ∧ ¬ asciiNumeral "３４" := by
  decide

/-- C9 amended: a rating cell passes the aggregation numeric filter if and
only if its string form, after removing the first '.' character, is nonempty
and consists solely of characters Python's `isdigit` accepts — the ASCII
digits and the other Unicode digit characters such as fullwidth digits.
Consequently negative numerals, percent-suffixed strings, scientific
notation, empty cells and NaN are dropped, while non-negative integers and
decimals with a single point are kept. -/
theorem c9_filter_iff (s : String) :
    passesFilter s = true ↔
      (removeDotOnce s.data ≠ [] ∧ ∀ c ∈ removeDotOnce s.data, pyDigitChar c = true) := by
  simp [passesFilter, pyIsDigit, List.isEmpty_iff, List.all_eq_true]

lemma flatten_map_filter (q : Row → Bool) (files : List (List Row)) :
    (files.map (fun f => f.filter q)).flatten = files.flatten.filter q := by
  induction files with
  | nil => rfl
  | cons f fs ih =>
    simp only [List.map_cons, List.flatten_cons, List.filter_append]
    rw [ih]

lemma ratesOf_eq_validFor (files : List (List Row)) (p : String) :
    ratesOf files p = validFor files.flatten p := by
  unfold ratesOf validFor combined_df filterFile
  rw [flatten_map_filter, List.filter_filter]
  congr 1
  exact List.filter_congr (fun r _ => by rw [Bool.and_comm])

/-- C2: for every set of uploaded tables and every category, the aggregated
value is the arithmetic mean of exactly the rating entries of that category
whose cells pass the numeric filter, taken across the concatenation of all
uploaded tables; rows dropped by the filter contribute to neither the sum nor
the count, and a category with no surviving row is absent from the grouped
table. -/
theorem c2_aggregate_mean (files : List (List Row)) (p : String) :
    avgFor files p =
      match validFor files.flatten p with
      | [] => none
      | l => some (l.sum / l.length) := by
  unfold avgFor
  rw [ratesOf_eq_validFor]

lemma parseRat_eval (s : String) (i f : List Char) (a b : ℕ)
    (hs : intFracSplit s.data = (i, f)) (hi : parseNatDigits i = a)
    (hf : parseNatDigits f = b) :
    parseRat s = (a : ℚ) + (b : ℚ) / 10 ^ f.length := by
  rw [parseRat, hs, hi, hf]

lemma parseRat_30 : parseRat "30.0" = 30 := by
  rw [parseRat_eval "30.0" ['3', '0'] ['0'] 30 0 (by decide) (by decide) (by decide)]
  norm_num

lemma parseRat_34 : parseRat "34.0" = 34 := by
  rw [parseRat_eval "34.0" ['3', '4'] ['0'] 34 0 (by decide) (by decide) (by decide)]
  norm_num

/-- Concrete scenario 3 of the specification: tables with 自民党 ratings
"30.0", "N/A", "34.0" aggregate to the mean 32 of the two valid entries. -/
lemma aggregate_scenario3 :
    avgFor [[⟨"自民党", "30.0"⟩], [⟨"自民党", "N/A"⟩, ⟨"自民党", "34.0"⟩]] "自民党" =
      some 32 := by
  have hc : combined_df [[⟨"自民党", "30.0"⟩], [⟨"自民党", "N/A"⟩, ⟨"自民党", "34.0"⟩]] =
      [⟨"自民党", "30.0"⟩, ⟨"自民党", "34.0"⟩] := by decide
  have hg : ([⟨"自民党", "30.0"⟩, ⟨"自民党", "34.0"⟩] : List Row).filter
      (fun r => r.party = "自民党") = [⟨"自民党", "30.0"⟩, ⟨"自民党", "34.0"⟩] := by decide
  have h : ratesOf [[⟨"自民党", "30.0"⟩], [⟨"自民党", "N/A"⟩, ⟨"自民党", "34.0"⟩]] "自民党" =
      [parseRat "30.0", parseRat "34.0"] := by
    rw [ratesOf, hc, hg]; rfl
  rw [avgFor, h, parseRat_30, parseRat_34]
  norm_num

lemma cellRates_eq_rawRates (rows : List TSRow) (sel : List String) (d : ℤ)
    (p : String) (h : p ∈ sel) :
    cellRates rows sel d p = rawRates rows d p := by
  unfold cellRates selRows dropnaTS rawRates
  rw [List.filter_filter, List.filter_filter, List.filterMap_filter]
  apply List.filterMap_congr
  intro r _
  by_cases hd : r.date = d
  · by_cases hp : r.party = p
    · have hsel : r.party ∈ sel := by rw [hp]; exact h
      cases hr : r.rate with
      | none => simp [hd, hp, hsel, hr, h]
      | some q => simp [hd, hp, hsel, hr, h]
    · simp [hd, hp]
  · simp [hd]

lemma pivotDates_sorted (rows : List TSRow) (sel : List String) :
    List.Sorted (· < ·) (pivotDates rows sel) := by
  have hs : List.Sorted (· ≤ ·) (pivotDates rows sel) :=
    List.sorted_insertionSort _ _
  have hp := List.perm_insertionSort (α := ℤ) (· ≤ ·)
    (((selRows rows sel).map (fun r => r.date)).dedup)
  have hn : (pivotDates rows sel).Nodup := hp.symm.nodup (List.nodup_dedup _)
  exact hs.lt_of_le hn

/-- C4: for every time-series table and every (date, category) pair of a
selected category, the pivot cell is the arithmetic mean of all non-missing
ratings of the raw rows carrying that date and category (so duplicates are
averaged, not overwritten by the last row), and the pivot's date index is
strictly ascending. -/
theorem c4_pivot (rows : List TSRow) (sel : List String) (d : ℤ) (p : String)
    (h : p ∈ sel) :
    (pivotCell rows sel d p =
      match rawRates rows d p with
      | [] => none
      | l => some (l.sum / l.length))
    ∧ List.Sorted (· < ·) (pivotDates rows sel) := by
  refine ⟨?_, pivotDates_sorted rows sel⟩
  rw [pivotCell, cellRates_eq_rawRates rows sel d p h]

/-- Concrete scenario 4 of the specification: two rows (2024-01-01, 自民党,
30.0) and (2024-01-01, 自民党, 34.0), the date keyed as 0. -/
def tsScenario : List TSRow :=
  [⟨0, "自民党", some 30⟩, ⟨0, "自民党", some 34⟩]

/-- Witness for C4 at scenario 4: the duplicate rows average to 32 and the
date index is sorted. -/
theorem c4_pivot_witness :
    pivotCell tsScenario ["自民党"] 0 "自民党" = some 32
    ∧ List.Sorted (· < ·) (pivotDates tsScenario ["自民党"]) := by
  have h := c4_pivot tsScenario ["自民党"] 0 "自民党" (by decide)
  refine ⟨?_, h.2⟩
  rw [h.1]
  have hraw : rawRates tsScenario 0 "自民党" = [30, 34] := rfl
  rw [hraw]
  show some ((([30, 34] : List ℚ).sum) / ((([30, 34] : List ℚ).length : ℕ) : ℚ)) =
    some (32 : ℚ)
  norm_num

lemma mk_data (s : String) : String.mk s.data = s := rfl

lemma groupKeys_eq_of_same_parties (files files' : List (List Row))
    (h₁ : ∀ p ∈ uploadParties files, p ∈ uploadParties files')
    (h₂ : ∀ p ∈ uploadParties files', p ∈ uploadParties files) :
    groupKeys files = groupKeys files' := by
  have hmem : ∀ x, x ∈ ((uploadParties files).map String.data).dedup ↔
      x ∈ ((uploadParties files').map String.data).dedup := by
    intro x
    rw [List.mem_dedup, List.mem_dedup, List.mem_map, List.mem_map]
    constructor
    · rintro ⟨p, hp, rfl⟩; exact ⟨p, h₁ p hp, rfl⟩
    · rintro ⟨p, hp, rfl⟩; exact ⟨p, h₂ p hp, rfl⟩
  have hperm : List.Perm (((uploadParties files).map String.data).dedup)
      (((uploadParties files').map String.data).dedup) :=
    (List.perm_ext_iff_of_nodup (List.nodup_dedup _) (List.nodup_dedup _)).mpr hmem
  have hsortperm :
      List.Perm (List.insertionSort (· ≤ ·) (((uploadParties files).map String.data).dedup))
        (List.insertionSort (· ≤ ·) (((uploadParties files').map String.data).dedup)) :=
    ((List.perm_insertionSort _ _).trans hperm).trans (List.perm_insertionSort _ _).symm
  unfold groupKeys
  rw [List.eq_of_perm_of_sorted hsortperm (List.sorted_insertionSort _ _)
    (List.sorted_insertionSort _ _)]

lemma mem_groupKeys (files : List (List Row)) (p : String) :
    p ∈ groupKeys files ↔ p ∈ uploadParties files := by
  unfold groupKeys
  rw [List.mem_map]
  constructor
  · rintro ⟨l, hl, rfl⟩
    have := (List.perm_insertionSort (α := List Char) (· ≤ ·) _).mem_iff.mp hl
    rw [List.mem_dedup, List.mem_map] at this
    obtain ⟨q, hq, rfl⟩ := this
    rw [mk_data]
    exact hq
  · intro hp
    refine ⟨p.data, ?_, mk_data p⟩
    exact (List.perm_insertionSort (α := List Char) (· ≤ ·) _).mem_iff.mpr
      (List.mem_dedup.mpr (List.mem_map.mpr ⟨p, hp, rfl⟩))

/-- C5: the aggregated categories are displayed in an order that depends only
on the set of surviving category cells, not on upload or row order; the
displayed list is sorted by the canonical key (known categories in canonical
order, unknown categories keyed after them rather than crashing the sort);
and it contains exactly the surviving categories. -/
theorem c5_canonical_order (files files' : List (List Row))
    (h₁ : ∀ p ∈ uploadParties files, p ∈ uploadParties files')
    (h₂ : ∀ p ∈ uploadParties files', p ∈ uploadParties files) :
    displayOrder files = displayOrder files'
    ∧ List.Sorted catLe (displayOrder files)
    ∧ ∀ p, p ∈ displayOrder files ↔ p ∈ uploadParties files := by
  refine ⟨?_, List.sorted_insertionSort catLe _, ?_⟩
  · unfold displayOrder
    rw [groupKeys_eq_of_same_parties files files' h₁ h₂]
  · intro p
    rw [displayOrder, (List.perm_insertionSort catLe _).mem_iff, mem_groupKeys]

/-- Aggregation upload: one file containing a known-order-breaking row order
and an unknown category 謎党. -/
def aggFilesA : List (List Row) :=
  [[⟨"立憲民主党", "10.0"⟩, ⟨"自民党", "30.0"⟩, ⟨"謎党", "5.0"⟩]]

/-- The same rows as `aggFilesA` split across two files in another order. -/
def aggFilesB : List (List Row) :=
  [[⟨"謎党", "5.0"⟩], [⟨"自民党", "30.0"⟩, ⟨"立憲民主党", "10.0"⟩]]

/-- Witness for C5: the two upload orders display identically, sorted by the
canonical key, and the unknown category 謎党 is still displayed. -/
theorem c5_canonical_order_witness :
    displayOrder aggFilesA = displayOrder aggFilesB
    ∧ List.Sorted catLe (displayOrder aggFilesA)
    ∧ ("謎党" ∈ displayOrder aggFilesA ↔ "謎党" ∈ uploadParties aggFilesA) := by
  have h := c5_canonical_order aggFilesA aggFilesB (by decide) (by decide)
  exact ⟨h.1, h.2.1, h.2.2 "謎党"⟩

lemma roundHalfEven_sub_le (x : ℚ) : |(roundHalfEven x : ℚ) - x| ≤ 1/2 := by
  have h0 : (⌊x⌋ : ℚ) ≤ x := Int.floor_le x
  have h1 : x < ⌊x⌋ + 1 := Int.lt_floor_add_one x
  unfold roundHalfEven
  by_cases hlt : x - ⌊x⌋ < 1/2
  · rw [if_pos hlt, abs_le]
    constructor <;> linarith
  · rw [if_neg hlt]
    by_cases hgt : 1/2 < x - ⌊x⌋
    · rw [if_pos hgt, abs_le]
      push_cast
      constructor <;> linarith
    · have heq : x - ⌊x⌋ = 1/2 := le_antisymm (not_lt.mp hgt) (not_lt.mp hlt)
      rw [if_neg hgt]
      by_cases he : ⌊x⌋ % 2 = 0
      · rw [if_pos he, abs_le]
        constructor <;> linarith
      · rw [if_neg he, abs_le]
        push_cast
        constructor <;> linarith

lemma round1_sub_le (q : ℚ) : |round1 q - q| ≤ 1/20 := by
  have h := roundHalfEven_sub_le (10 * q)
  have he : round1 q - q = ((roundHalfEven (10 * q) : ℚ) - 10 * q) / 10 := by
    rw [round1]; ring
  rw [he, abs_div]
  rw [abs_of_pos (show (0:ℚ) < 10 by norm_num)]
  linarith

lemma roundHalfEven_intCast (k : ℤ) : roundHalfEven (k : ℚ) = k := by
  unfold roundHalfEven
  rw [Int.floor_intCast]
  rw [if_pos (by norm_num)]

lemma round1_tenths (k : ℤ) : round1 ((k : ℚ) / 10) = (k : ℚ) / 10 := by
  rw [round1, show (10 : ℚ) * ((k : ℚ) / 10) = (k : ℚ) by ring, roundHalfEven_intCast]

/-- Numeric reading of a rating cell (the error sentinel counts as zero; it
never occurs in the sums considered below). -/
def rvalNum (v : RVal) : ℚ :=
  match v with
  | RVal.num q => q
  | RVal.err => 0

lemma support_rates_sum (input : String → ℚ) (hs : total_manual input ≤ 100) :
    ((support_rates input).map (fun pv => rvalNum pv.2)).sum =
      total_manual input + round1 (100 - total_manual input) := by
  unfold support_rates
  rw [List.map_append, List.sum_append, List.map_map]
  have h1 : List.map ((fun pv => rvalNum pv.2) ∘ fun p => (p, RVal.num (input p)))
      manual_parties = List.map input manual_parties := rfl
  rw [h1]
  have h2 : otherRate input = RVal.num (round1 (100 - total_manual input)) := by
    rw [otherRate, if_neg (not_lt.mpr hs)]
  simp [h2, rvalNum, total_manual]

/-- C6: for every mapping of the fixed categories to ratings in bounds whose
sum is at most 100, the completed mapping including the derived "その他"
sums to 100 up to the one-decimal rounding tolerance of 0.05. -/
theorem c6_sum_tolerance (input : String → ℚ)
    (hr : ∀ p ∈ manual_parties, 0 ≤ input p ∧ input p ≤ 100)
    (hs : total_manual input ≤ 100) :
    |((support_rates input).map (fun pv => rvalNum pv.2)).sum - 100| ≤ 1/20 := by
  rw [support_rates_sum input hs]
  have he : total_manual input + round1 (100 - total_manual input) - 100 =
      round1 (100 - total_manual input) - (100 - total_manual input) := by ring
  rw [he]
  exact round1_sub_le _

/-- Concrete scenario 1 of the specification: 自民党 35%, 立憲民主党 10%, all
other manual categories 0%. -/
def exInput : String → ℚ :=
  fun p => if p = "自民党" then 35 else if p = "立憲民主党" then 10 else 0

lemma total_manual_exInput : total_manual exInput = 45 := by
  have h : manual_parties.map exInput =
      [35, 10, 0, 0, 0, 0, 0, 0, 0, 0, 0, 0] := rfl
  rw [total_manual, h]
  norm_num

/-- Witness for C6 at scenario 1 (sum 45, derived "その他" 55). -/
theorem c6_sum_tolerance_witness :
    |((support_rates exInput).map (fun pv => rvalNum pv.2)).sum - 100| ≤ 1/20 := by
  refine c6_sum_tolerance exInput ?_ ?_
  · intro p _
    unfold exInput
    split_ifs <;> norm_num
  · rw [total_manual_exInput]; norm_num

lemma digitChar_isDigit (r : ℕ) (h : r < 10) : (Char.ofNat (48 + r)).isDigit = true := by
  interval_cases r <;> decide

lemma digitVal_digitChar (r : ℕ) (h : r < 10) : digitVal (Char.ofNat (48 + r)) = r := by
  interval_cases r <;> decide

lemma natDigitsGo_isDigit :
    ∀ f n : ℕ, ∀ c ∈ natDigitsGo f n, c.isDigit = true := by
  intro f
  induction f with
  | zero => intro n c hc; simp [natDigitsGo] at hc
  | succ f ih =>
    intro n c hc
    rw [natDigitsGo] at hc
    by_cases h : n < 10
    · rw [if_pos h] at hc
      rw [List.mem_singleton] at hc
      rw [hc]
      exact digitChar_isDigit n h
    · rw [if_neg h] at hc
      rcases List.mem_append.mp hc with hl | hr
      · exact ih (n / 10) c hl
      · rw [List.mem_singleton] at hr
        rw [hr]
        exact digitChar_isDigit (n % 10) (Nat.mod_lt _ (by omega))

lemma natDigits_isDigit (n : ℕ) : ∀ c ∈ natDigits n, c.isDigit = true :=
  natDigitsGo_isDigit (n + 1) n

lemma parseNatDigits_append_one (l : List Char) (c : Char) :
    parseNatDigits (l ++ [c]) = 10 * parseNatDigits l + digitVal c := by
  unfold parseNatDigits
  rw [List.foldl_append]
  rfl

lemma parseNatDigits_natDigitsGo :
    ∀ f n : ℕ, n < f → parseNatDigits (natDigitsGo f n) = n := by
  intro f
  induction f with
  | zero => intro n h; omega
  | succ f ih =>
    intro n h
    rw [natDigitsGo]
    by_cases h10 : n < 10
    · rw [if_pos h10]
      show List.foldl (fun a c => 10 * a + digitVal c) 0 [Char.ofNat (48 + n)] = n
      rw [List.foldl_cons, List.foldl_nil, digitVal_digitChar n h10]
      omega
    · rw [if_neg h10, parseNatDigits_append_one, ih (n / 10) (by omega),
        digitVal_digitChar (n % 10) (Nat.mod_lt _ (by omega))]
      omega

lemma parseNatDigits_natDigits (n : ℕ) : parseNatDigits (natDigits n) = n :=
  parseNatDigits_natDigitsGo (n + 1) n (by omega)

lemma natDigits_no_dot (n : ℕ) : ∀ c ∈ natDigits n, c ≠ '.' := by
  intro c hc heq
  have h := natDigits_isDigit n c hc
  rw [heq] at h
  exact absurd h (by decide)

lemma removeDotOnce_append_no_dot (l r : List Char) (h : ∀ c ∈ l, c ≠ '.') :
    removeDotOnce (l ++ r) = l ++ removeDotOnce r := by
  induction l with
  | nil => rfl
  | cons c cs ih =>
    rw [List.cons_append, removeDotOnce, if_neg (h c (List.mem_cons_self c cs)),
      ih (fun x hx => h x (List.mem_cons_of_mem c hx))]
    rfl

lemma removeDotOnce_dot_cons (r : List Char) : removeDotOnce ('.' :: r) = r := by
  rw [removeDotOnce, if_pos rfl]

lemma intFracSplit_append (l r : List Char) (h : ∀ c ∈ l, c ≠ '.') :
    intFracSplit (l ++ '.' :: r) = (l, r) := by
  induction l with
  | nil => rw [List.nil_append, intFracSplit, if_pos rfl]
  | cons c cs ih =>
    rw [List.cons_append, intFracSplit, if_neg (h c (List.mem_cons_self c cs)),
      ih (fun x hx => h x (List.mem_cons_of_mem c hx))]

lemma floor_ten_mul_tenth (k : ℕ) : ⌊(10 : ℚ) * ((k : ℚ) / 10)⌋ = (k : ℤ) := by
  rw [show (10 : ℚ) * ((k : ℚ) / 10) = ((k : ℤ) : ℚ) by push_cast; ring,
    Int.floor_intCast]

lemma fmtTenths_eval (k : ℕ) :
    fmtTenths ((k : ℚ) / 10) =
      String.mk (natDigits (k / 10) ++ '.' :: [Char.ofNat (48 + k % 10)]) := by
  unfold fmtTenths
  rw [floor_ten_mul_tenth, Int.toNat_natCast]

lemma passes_fmtTenths (k : ℕ) : passesFilter (fmtTenths ((k : ℚ) / 10)) = true := by
  rw [fmtTenths_eval]
  show pyIsDigit (removeDotOnce (natDigits (k / 10) ++ '.' :: [Char.ofNat (48 + k % 10)])) =
    true
  rw [removeDotOnce_append_no_dot _ _ (natDigits_no_dot (k / 10)), removeDotOnce_dot_cons]
  rw [pyIsDigit, Bool.and_eq_true, List.all_eq_true]
  constructor
  · rw [Bool.not_eq_true', List.isEmpty_eq_false_iff_exists_mem]
    exact ⟨Char.ofNat (48 + k % 10), List.mem_append_right _ (List.mem_singleton.mpr rfl)⟩
  · intro c hc
    rcases List.mem_append.mp hc with hl | hr
    · rw [pyDigitChar, natDigits_isDigit (k / 10) c hl, Bool.true_or]
    · rw [List.mem_singleton] at hr
      rw [hr, pyDigitChar, digitChar_isDigit (k % 10) (Nat.mod_lt _ (by omega)), Bool.true_or]

lemma parseRat_fmtTenths (k : ℕ) : parseRat (fmtTenths ((k : ℚ) / 10)) = (k : ℚ) / 10 := by
  rw [fmtTenths_eval]
  show (parseNatDigits (intFracSplit (natDigits (k / 10) ++ '.' ::
      [Char.ofNat (48 + k % 10)])).1 : ℚ) + _ / 10 ^ (intFracSplit (natDigits (k / 10) ++
      '.' :: [Char.ofNat (48 + k % 10)])).2.length = (k : ℚ) / 10
  rw [intFracSplit_append _ _ (natDigits_no_dot (k / 10))]
  show (parseNatDigits (natDigits (k / 10)) : ℚ) +
    (parseNatDigits [Char.ofNat (48 + k % 10)] : ℚ) / 10 ^ (1 : ℕ) = (k : ℚ) / 10
  have h1 : parseNatDigits [Char.ofNat (48 + k % 10)] = k % 10 := by
    show List.foldl (fun a c => 10 * a + digitVal c) 0 [Char.ofNat (48 + k % 10)] = k % 10
    rw [List.foldl_cons, List.foldl_nil, digitVal_digitChar (k % 10) (Nat.mod_lt _ (by omega))]
    omega
  rw [parseNatDigits_natDigits, h1]
  have h2 : (10 : ℚ) * (k / 10 : ℕ) + (k % 10 : ℕ) = (k : ℚ) := by
    exact_mod_cast congrArg (Nat.cast : ℕ → ℚ) (Nat.div_add_mod k 10)
  field_simp
  linarith [h2]

instance (s : String) : Decidable (isPercentDisplay s) := by
  unfold isPercentDisplay; infer_instance

lemma fmtTenths_35 : fmtTenths 35 = "35.0" := by
  rw [show (35 : ℚ) = ((350 : ℕ) : ℚ) / 10 by norm_num, fmtTenths_eval]
  decide

lemma fmtTenths_getLast (q : ℚ) :
    (fmtTenths q).data.getLast? = some (Char.ofNat (48 + (⌊10 * q⌋).toNat % 10)) := by
  show (natDigits ((⌊10 * q⌋).toNat / 10) ++
      '.' :: [Char.ofNat (48 + (⌊10 * q⌋).toNat % 10)]).getLast? = _
  rw [show natDigits ((⌊10 * q⌋).toNat / 10) ++ '.' ::
      [Char.ofNat (48 + (⌊10 * q⌋).toNat % 10)] =
      (natDigits ((⌊10 * q⌋).toNat / 10) ++ ['.']) ++
        [Char.ofNat (48 + (⌊10 * q⌋).toNat % 10)] by simp]
  exact List.getLast?_concat _

lemma not_percent_fmtTenths (q : ℚ) : ¬ isPercentDisplay (fmtTenths q) := by
  intro h
  have hl := fmtTenths_getLast q
  have hr : (⌊10 * q⌋).toNat % 10 < 10 := Nat.mod_lt _ (by omega)
  rcases h with he | hp
  · rw [he] at hl
    revert hl
    show ("エラー" : String).data.getLast? =
      some (Char.ofNat (48 + (⌊10 * q⌋).toNat % 10)) → False
    intro hl
    have : ('ー' : Char) = Char.ofNat (48 + (⌊10 * q⌋).toNat % 10) := by
      have hc : ("エラー" : String).data.getLast? = some 'ー' := by decide
      rw [hc] at hl
      exact Option.some.inj hl
    revert this
    interval_cases h : (⌊10 * q⌋).toNat % 10 <;> decide
  · rw [hl] at hp
    have : Char.ofNat (48 + (⌊10 * q⌋).toNat % 10) = '%' := Option.some.inj hp
    revert this
    interval_cases h : (⌊10 * q⌋).toNat % 10 <;> decide

lemma support_rates_keys (input : String → ℚ) :
    (support_rates input).map Prod.fst = manual_parties ++ [auto_party] := by
  unfold support_rates
  rw [List.map_append, List.map_map]
  have h : (Prod.fst ∘ fun p => (p, RVal.num (input p))) = fun p : String => p := rfl
  rw [h, List.map_id']
  rfl

lemma sum_tenths (input : String → ℚ) :
    ∀ l : List String, (∀ p ∈ l, ∃ k : ℕ, input p = (k : ℚ) / 10) →
      ∃ K : ℕ, (l.map input).sum = (K : ℚ) / 10 := by
  intro l
  induction l with
  | nil => intro _; exact ⟨0, by simp⟩
  | cons p ps ih =>
    intro h
    obtain ⟨k, hk⟩ := h p (List.mem_cons_self p ps)
    obtain ⟨K, hK⟩ := ih (fun x hx => h x (List.mem_cons_of_mem p hx))
    refine ⟨k + K, ?_⟩
    rw [List.map_cons, List.sum_cons, hk, hK]
    push_cast
    ring

lemma round1_tenths_nat (k : ℕ) : round1 ((k : ℚ) / 10) = (k : ℚ) / 10 := by
  have h := round1_tenths (k : ℤ)
  rwa [Int.cast_natCast] at h

lemma support_rates_tenths (input : String → ℚ)
    (hr : ∀ p ∈ manual_parties, ∃ k : ℕ, input p = (k : ℚ) / 10)
    (hs : total_manual input ≤ 100) :
    ∀ p v, (p, v) ∈ support_rates input → ∃ k : ℕ, v = RVal.num ((k : ℚ) / 10) := by
  intro p v hm
  rcases List.mem_append.mp hm with hmm | hma
  · obtain ⟨p', hp', heq⟩ := List.mem_map.mp hmm
    obtain ⟨k, hk⟩ := hr p' hp'
    refine ⟨k, ?_⟩
    rw [← (Prod.mk.injEq _ _ _ _).mp heq |>.2, hk]
  · rw [List.mem_singleton] at hma
    have hv : v = otherRate input := ((Prod.mk.injEq _ _ _ _).mp hma).2
    obtain ⟨K, hK⟩ := sum_tenths input manual_parties hr
    have hKle : K ≤ 1000 := by
      rw [total_manual, hK] at hs
      by_contra hgt
      push_neg at hgt
      have : (1000 : ℚ) < (K : ℚ) := by exact_mod_cast hgt
      linarith
    refine ⟨1000 - K, ?_⟩
    rw [hv, otherRate, if_neg (not_lt.mpr hs), total_manual, hK]
    have he : (100 : ℚ) - (K : ℚ) / 10 = ((1000 - K : ℕ) : ℚ) / 10 := by
      rw [Nat.cast_sub hKle]
      push_cast
      ring
    rw [he, round1_tenths_nat]

/-- C7 counterexample: for scenario 1 input, source NHK and date 2024-01-01,
the first exported row's rating cell is the raw value string "35.0" — not the
"35.0%" display form the claim prescribes, and not the error token. -/
theorem c7_counterexample :
    (df_export exInput "NHK" 2024 1 1).head? =
      some ⟨"自民党", "35.0", "NHK", "2024-01-01"⟩
    ∧ ¬ isPercentDisplay "35.0" := by
  constructor
  · have h35 : rvalCell (RVal.num (exInput "自民党")) = "35.0" := by
      show fmtTenths (exInput "自民党") = "35.0"
      exact fmtTenths_35
    have hd : formatDateDashed 2024 1 1 = "2024-01-01" := by decide
    show some (⟨"自民党", rvalCell (RVal.num (exInput "自民党")), "NHK",
      formatDateDashed 2024 1 1⟩ : ExportRow) = _
    rw [h35, hd]
  · decide

/-- C7 amended: the exported table has columns 政党, 支持率, データソース,
調査日, one row per category (the twelve manual categories then "その他"),
with source and `%Y-%m-%d` date on every row; each rating cell carries the
raw value string (`str` of the stored number), not the percent-formatted
display value, which only the on-screen confirmation table uses; the error
token can appear only in the overflow state, in which export is disabled. -/
theorem c7_export_table (input : String → ℚ) (source : String) (y m d : ℕ)
    (hr : ∀ p ∈ manual_parties, ∃ k : ℕ, input p = (k : ℚ) / 10)
    (hs : total_manual input ≤ 100) :
    (df_export input source y m d).map ExportRow.party = manual_parties ++ [auto_party]
    ∧ ∀ r ∈ df_export input source y m d,
        r.src = source ∧ r.date = formatDateDashed y m d ∧
        ∃ q : ℚ, r.rating = fmtTenths q ∧ ¬ isPercentDisplay r.rating := by
  constructor
  · rw [df_export, List.map_map]
    exact support_rates_keys input
  · intro r hrm
    obtain ⟨pv, hpv, heq⟩ := List.mem_map.mp hrm
    obtain ⟨k, hk⟩ := support_rates_tenths input hr hs pv.1 pv.2 hpv
    subst heq
    refine ⟨rfl, rfl, (k : ℚ) / 10, ?_, ?_⟩
    · show rvalCell pv.2 = _
      rw [hk]
      rfl
    · show ¬ isPercentDisplay (rvalCell pv.2)
      rw [hk]
      exact not_percent_fmtTenths _

lemma exInput_tenths : ∀ p ∈ manual_parties, ∃ k : ℕ, exInput p = (k : ℚ) / 10 := by
  intro p _
  unfold exInput
  split_ifs
  · exact ⟨350, by norm_num⟩
  · exact ⟨100, by norm_num⟩
  · exact ⟨0, by norm_num⟩

lemma exInput_le : total_manual exInput ≤ 100 := by
  rw [total_manual_exInput]; norm_num

lemma mem_df_export_exInput :
    (⟨"自民党", "35.0", "NHK", "2024-01-01"⟩ : ExportRow) ∈
      df_export exInput "NHK" 2024 1 1 := by
  have h35 : rvalCell (RVal.num (exInput "自民党")) = "35.0" := fmtTenths_35
  have hd : formatDateDashed 2024 1 1 = "2024-01-01" := by decide
  have hm : (⟨"自民党", rvalCell (RVal.num (exInput "自民党")), "NHK",
      formatDateDashed 2024 1 1⟩ : ExportRow) ∈ df_export exInput "NHK" 2024 1 1 := by
    unfold df_export
    exact List.mem_map.mpr ⟨("自民党", RVal.num (exInput "自民党")),
      List.mem_append_left _ (List.mem_map.mpr ⟨"自民党", by decide, rfl⟩), rfl⟩
  rw [h35, hd] at hm
  exact hm

/-- Witness for C7 amended at scenario 1: the column and date shape holds and
the 自民党 row carries the raw cell "35.0". -/
theorem c7_export_table_witness :
    (df_export exInput "NHK" 2024 1 1).map ExportRow.party = manual_parties ++ [auto_party]
    ∧ (ExportRow.mk "自民党" "35.0" "NHK" "2024-01-01").src = "NHK"
    ∧ (ExportRow.mk "自民党" "35.0" "NHK" "2024-01-01").date = formatDateDashed 2024 1 1
    ∧ ∃ q : ℚ, (ExportRow.mk "自民党" "35.0" "NHK" "2024-01-01").rating = fmtTenths q
        ∧ ¬ isPercentDisplay (ExportRow.mk "自民党" "35.0" "NHK" "2024-01-01").rating := by
  have h := c7_export_table exInput "NHK" 2024 1 1 exInput_tenths exInput_le
  have h2 := h.2 _ mem_df_export_exInput
  exact ⟨h.1, h2.1, h2.2.1, h2.2.2⟩

/- ### Round trip: export then aggregate (claims C10) -/

/-- Re-uploading a just-exported CSV into the aggregation workflow: the
政党 and 支持率 cells of each exported row. -/
def uploadOf (input : String → ℚ) (source : String) (y m d : ℕ) : List Row :=
  (df_export input source y m d).map (fun r => ⟨r.party, r.rating⟩)

lemma uploadOf_eq (input : String → ℚ) (source : String) (y m d : ℕ) :
    uploadOf input source y m d =
      (support_rates input).map (fun pv => Row.mk pv.1 (rvalCell pv.2)) := by
  unfold uploadOf df_export
  rw [List.map_map]
  rfl

lemma filter_rows_none (p : String) (tl : List (String × RVal))
    (hp : p ∉ tl.map Prod.fst) :
    (tl.map (fun pv => Row.mk pv.1 (rvalCell pv.2))).filter
      (fun r => r.party = p) = [] := by
  rw [List.filter_eq_nil_iff]
  intro r hrm
  obtain ⟨pv, hpv, heq⟩ := List.mem_map.mp hrm
  subst heq
  simp only [decide_eq_true_eq]
  intro hcon
  exact hp (List.mem_map.mpr ⟨pv, hpv, hcon⟩)

lemma unique_row (l : List (String × RVal)) (hnd : (l.map Prod.fst).Nodup)
    (p : String) (v : RVal) (hm : (p, v) ∈ l) :
    (l.map (fun pv => Row.mk pv.1 (rvalCell pv.2))).filter
      (fun r => r.party = p) = [Row.mk p (rvalCell v)] := by
  induction l with
  | nil => cases hm
  | cons hd tl ih =>
    rw [List.map_cons] at hnd ⊢
    rw [List.filter_cons]
    rcases List.mem_cons.mp hm with heq | htl
    · have h1 : hd.1 = p := by rw [← heq]
      have h2 : hd.2 = v := by rw [← heq]
      rw [if_pos (by simpa using h1)]
      have hrest : (tl.map (fun pv => Row.mk pv.1 (rvalCell pv.2))).filter
          (fun r => r.party = p) = [] :=
        filter_rows_none p tl (h1 ▸ (List.nodup_cons.mp hnd).1)
      rw [hrest, h1, h2]
    · have hne : hd.1 ≠ p := by
        intro hcon
        exact (List.nodup_cons.mp hnd).1
          (hcon ▸ List.mem_map.mpr ⟨(p, v), htl, rfl⟩)
      rw [if_neg (by simpa using hne)]
      exact ih (List.nodup_cons.mp hnd).2 htl

lemma support_rates_keys_nodup (input : String → ℚ) :
    ((support_rates input).map Prod.fst).Nodup := by
  rw [support_rates_keys]
  decide

/-- C10: exporting a valid manual-entry mapping (ratings at the widget's 0.1
granularity, sum at most 100) and uploading the resulting single CSV into the
aggregation workflow loses no row to the numeric filter and reproduces every
category's entered (or derived) rating as its aggregated value. -/
theorem c10_roundtrip (input : String → ℚ) (source : String) (y m d : ℕ)
    (hr : ∀ p ∈ manual_parties, ∃ k : ℕ, input p = (k : ℚ) / 10)
    (hs : total_manual input ≤ 100) :
    filterFile (uploadOf input source y m d) = uploadOf input source y m d
    ∧ ∀ p v, (p, RVal.num v) ∈ support_rates input →
        avgFor [uploadOf input source y m d] p = some v := by
  have hpass : ∀ r ∈ uploadOf input source y m d, passesFilter r.rate = true := by
    intro r hrm
    rw [uploadOf_eq] at hrm
    obtain ⟨pv, hpv, heq⟩ := List.mem_map.mp hrm
    obtain ⟨k, hk⟩ := support_rates_tenths input hr hs pv.1 pv.2 hpv
    subst heq
    show passesFilter (rvalCell pv.2) = true
    rw [hk]
    exact passes_fmtTenths k
  have hfix : filterFile (uploadOf input source y m d) = uploadOf input source y m d := by
    unfold filterFile
    exact List.filter_eq_self.mpr hpass
  refine ⟨hfix, ?_⟩
  intro p v hm
  obtain ⟨k, hk⟩ := support_rates_tenths input hr hs p (RVal.num v) hm
  have hv : v = (k : ℚ) / 10 := RVal.num.inj hk
  have hcomb : combined_df [uploadOf input source y m d] = uploadOf input source y m d := by
    unfold combined_df
    rw [List.map_cons, List.map_nil, List.flatten_cons, List.flatten_nil,
      List.append_nil, hfix]
  rw [avgFor, ratesOf, hcomb, uploadOf_eq,
    unique_row _ (support_rates_keys_nodup input) p (RVal.num v) hm]
  show some ((parseRat (rvalCell (RVal.num v)) + 0) / ((1 : ℕ) : ℚ)) = some v
  have hp : parseRat (rvalCell (RVal.num v)) = v := by
    show parseRat (fmtTenths v) = v
    rw [hv]
    exact parseRat_fmtTenths k
  rw [hp]
  norm_num

/-- Witness for C10 at scenario 1: no exported row is filtered out and the
自民党 aggregate reproduces the entered 35. -/
theorem c10_roundtrip_witness :
    filterFile (uploadOf exInput "NHK" 2024 1 1) = uploadOf exInput "NHK" 2024 1 1
    ∧ avgFor [uploadOf exInput "NHK" 2024 1 1] "自民党" = some 35 := by
  have h := c10_roundtrip exInput "NHK" 2024 1 1 exInput_tenths exInput_le
  refine ⟨h.1, h.2 "自民党" 35 ?_⟩
  exact List.mem_append_left _ (List.mem_map.mpr ⟨"自民党", by decide, rfl⟩)
